import Mathlib

/-!
Verification of the client-side job queue of the Veo batch video-generation
front end.  The definitions below are a shallow embedding of the queue logic of
the application source (`App` component: `addJobs`, `updateJobStatus`,
`handleRetry`, `processQueue`, `startJob`) together with the error-message
pipeline of `generateVideoJob` in the service layer.  Times are modelled as
`Nat` milliseconds; job identifiers (UUIDs in the source) are modelled as `Nat`
drawn from a freshness counter, which captures exactly the "unique identifier
assigned at creation" contract.  The `history` field of `AppState` is a ghost
field: it records every admission timestamp ever appended to the rate window
and is used only to state the sliding-window property.
-/

-- Constants for queue management (source: top of the App module).
def MAX_CONCURRENT_JOBS : Nat := 4
def RATE_LIMIT_WINDOW_MS : Nat := 60000
def MAX_STARTS_PER_WINDOW : Nat := 4

inductive JobStatus where
  | pending
  | processing
  | completed
  | failed
deriving DecidableEq

inductive InputType where
  | text
  | image
deriving DecidableEq

inductive ModelType where
  | veoFast
  | veoHQ
deriving DecidableEq

inductive AspectRatio where
  | r16x9
  | r9x16
deriving DecidableEq

inductive Resolution where
  | r720p
  | r1080p
deriving DecidableEq

structure JobConfig where
  prompt : String
  inputType : InputType
  model : ModelType
  aspectRatio : AspectRatio
  resolution : Resolution
  imageBase64 : Option String := none
  imageMimeType : Option String := none
deriving DecidableEq

structure Job where
  id : Nat
  config : JobConfig
  status : JobStatus
  videoUri : Option String := none
  downloadUrl : Option String := none
  error : Option String := none
  createdAt : Nat
  startedAt : Option Nat := none
  completedAt : Option Nat := none
deriving DecidableEq

/-- The mutable application state: the ordered job store, the rate-window
timestamps (`queueStarts` in the source), the id-freshness counter modelling
`crypto.randomUUID`, the last observed clock value, and the ghost admission
history. -/
structure AppState where
  jobs : List Job
  queueStarts : List Nat
  nextId : Nat
  now : Nat
  history : List Nat
deriving DecidableEq

def initState : AppState :=
  { jobs := [], queueStarts := [], nextId := 0, now := 0, history := [] }

/-- A partial field update, mirroring the `Partial<Job>` object spread in
`updateJobStatus`: an outer `some` means the key is present in the update
object (its inner value may itself be `undefined`, as in `{ error: undefined }`
used by `handleRetry`). -/
structure JobUpdates where
  videoUri : Option (Option String) := none
  downloadUrl : Option (Option String) := none
  error : Option (Option String) := none
  startedAt : Option (Option Nat) := none
  completedAt : Option (Option Nat) := none

/-- `{ ...job, status, ...updates }` from the source. -/
def applyUpdates (st : JobStatus) (u : JobUpdates) (j : Job) : Job :=
  { j with
    status := st
    videoUri := u.videoUri.getD j.videoUri
    downloadUrl := u.downloadUrl.getD j.downloadUrl
    error := u.error.getD j.error
    startedAt := u.startedAt.getD j.startedAt
    completedAt := u.completedAt.getD j.completedAt }

/-- `updateJobStatus` from the source: map over the store, replacing the job
whose id matches. -/
def updateJobStatus (id : Nat) (st : JobStatus) (u : JobUpdates) (s : AppState) :
    AppState :=
  { s with jobs := s.jobs.map fun j => if j.id == id then applyUpdates st u j else j }

/-- `addJobs` from the source: append `count` fresh Pending jobs, each with its
own copy of `config` (value semantics make the clone implicit) and
`createdAt = now`.  `Array.from ⦃length: count⦄` yields the empty array for a
non-positive count, which `Int.toNat` reproduces. -/
def addJobs (config : JobConfig) (count : Int) (createdAt : Nat) (s : AppState) :
    AppState :=
  let n := count.toNat
  let newJobs := (List.range n).map fun i =>
    { id := s.nextId + i
      config := config
      status := JobStatus.pending
      createdAt := createdAt : Job }
  { s with jobs := s.jobs ++ newJobs, nextId := s.nextId + n }

/-- `handleRetry` from the source: set the job back to Pending with
`error: undefined`. -/
def handleRetry (id : Nat) (s : AppState) : AppState :=
  updateJobStatus id JobStatus.pending { error := some none } s

/-- The synchronous admission prefix of `startJob`: mark the job Processing
with `startedAt = now` and append `now` to the rate window (and to the ghost
admission history). -/
def startJobAdmit (id : Nat) (now : Nat) (s : AppState) : AppState :=
  let s1 := updateJobStatus id JobStatus.processing { startedAt := some (some now) } s
  { s1 with queueStarts := s1.queueStarts ++ [now], history := s1.history ++ [now] }

/-- The success continuation of `startJob`: Completed with locator, local
handle and `completedAt`. -/
def completeJob (id : Nat) (now : Nat) (uri blobUrl : String) (s : AppState) :
    AppState :=
  updateJobStatus id JobStatus.completed
    { completedAt := some (some now)
      videoUri := some (some uri)
      downloadUrl := some (some blobUrl) } s

/-- The failure continuation of `startJob`: Failed with the caught message. -/
def failJob (id : Nat) (msg : String) (s : AppState) : AppState :=
  updateJobStatus id JobStatus.failed { error := some (some msg) } s

/-- JavaScript `a || b` on strings: the empty string is falsy. -/
def jsOr (a b : String) : String := if a = "" then b else a

/-- `err.message || "Unknown error occurred"` in `startJob`'s catch block;
`none` models a caught value with no `message` property. -/
def startJobFailMsg (emsg : Option String) : String :=
  jsOr (emsg.getD "") "Unknown error occurred"

/-- `processQueue` from the source: prune expired rate-window timestamps
(aborting the tick on any removal), check the concurrency and rate caps, then
admit the first Pending job, if any. -/
def processQueue (now : Nat) (s : AppState) : AppState :=
  let currentJobs := s.jobs
  let currentStarts := s.queueStarts
  let validStarts := currentStarts.filter fun t =>
    decide (now - t < RATE_LIMIT_WINDOW_MS)
  if validStarts.length ≠ currentStarts.length then
    { s with queueStarts := validStarts }
  else if MAX_CONCURRENT_JOBS ≤ (currentJobs.filter fun j =>
      j.status == JobStatus.processing).length then
    s
  else if MAX_STARTS_PER_WINDOW ≤ validStarts.length then
    s
  else
    match currentJobs.find? fun j => j.status == JobStatus.pending with
    | none => s
    | some candidate => startJobAdmit candidate.id now s

/-- Number of jobs with status Processing. -/
def processingCount (jobs : List Job) : Nat :=
  (jobs.filter fun j => j.status == JobStatus.processing).length

/-- Number of store positions whose job goes Pending in `old` to Processing in
`new`. -/
def pendingToProcessing (old new : List Job) : Nat :=
  ((old.zip new).filter fun p =>
    p.1.status == JobStatus.pending && p.2.status == JobStatus.processing).length

/-- Membership of timestamp `t` in the trailing window of length
`RATE_LIMIT_WINDOW_MS` ending at time `T`. -/
def inWindow (T t : Nat) : Bool :=
  decide (t ≤ T ∧ T - t < RATE_LIMIT_WINDOW_MS)

/-- Outcome of the remote generation operation observed by
`generateVideoJob`: an explicit operation error (with optional message), a
response carrying no video URI, or a URI. -/
inductive RemoteResult where
  | opErr (msg : Option String)
  | noUri
  | ok (uri : String)

/-- `generateVideoJob` from the service layer, as a function of the remote
outcome: an operation error throws `operation.error.message ||
"Unknown generation error"`, a missing URI throws a fixed message, and the
surrounding catch block rethrows `error.message || "Failed to generate
video"`. -/
def generateVideoJob (r : RemoteResult) : Except String String :=
  match r with
  | RemoteResult.opErr msg =>
      Except.error (jsOr (jsOr (msg.getD "") "Unknown generation error")
        "Failed to generate video")
  | RemoteResult.noUri =>
      Except.error (jsOr "No video URI returned in response"
        "Failed to generate video")
  | RemoteResult.ok uri => Except.ok uri

/-- The message ultimately produced by `generateVideoJob` on the
operation-error path. -/
def genVideoErrMsg (o : Option String) : String :=
  jsOr (jsOr (o.getD "") "Unknown generation error") "Failed to generate video"

/-- The asynchronous tail of `startJob`: on a successful generation the job is
Completed with the locator and the materialized blob URL, on a failure it is
Failed with `err.message || "Unknown error occurred"`. -/
def startJobOutcome (id : Nat) (now : Nat) (r : RemoteResult) (blobUrl : String)
    (s : AppState) : AppState :=
  match generateVideoJob r with
  | Except.ok uri => completeJob id now uri blobUrl s
  | Except.error e => failJob id (startJobFailMsg (some e)) s

/-- One observable event of the running system.  Every event happens at a time
`τ` no earlier than the last observed clock value (`Date.now()` is monotone)
and records `τ` as the new clock value.  `retry` fires only for a Failed job
(the Retry button is rendered only in that state) and the completion events
fire only for a Processing job (the continuation of the unique in-flight
execution that set it Processing). -/
inductive Step : AppState → AppState → Prop where
  | tick (s : AppState) (τ : Nat) (h : s.now ≤ τ) :
      Step s { processQueue τ s with now := τ }
  | add (s : AppState) (τ : Nat) (config : JobConfig) (count : Int)
      (h : s.now ≤ τ) :
      Step s { addJobs config count τ s with now := τ }
  | retry (s : AppState) (τ : Nat) (id : Nat) (h : s.now ≤ τ)
      (hj : ∃ j ∈ s.jobs, j.id = id ∧ j.status = JobStatus.failed) :
      Step s { handleRetry id s with now := τ }
  | finishOk (s : AppState) (τ : Nat) (id : Nat) (uri blobUrl : String)
      (h : s.now ≤ τ)
      (hj : ∃ j ∈ s.jobs, j.id = id ∧ j.status = JobStatus.processing) :
      Step s { completeJob id τ uri blobUrl s with now := τ }
  | finishErr (s : AppState) (τ : Nat) (id : Nat) (emsg : Option String)
      (h : s.now ≤ τ)
      (hj : ∃ j ∈ s.jobs, j.id = id ∧ j.status = JobStatus.processing) :
      Step s { failJob id (startJobFailMsg emsg) s with now := τ }

/-- States reachable from the empty initial state. -/
inductive Reachable : AppState → Prop where
  | init : Reachable initState
  | step {s s' : AppState} : Reachable s → Step s s' → Reachable s'

/-- The per-job field invariant: `error` only on Failed, the result pair only
on Completed, and everything clear while Pending or Processing. -/
def fieldsOK (j : Job) : Prop :=
  (j.status = JobStatus.failed →
    j.error.isSome ∧ j.videoUri = none ∧ j.downloadUrl = none) ∧
  (j.status = JobStatus.completed →
    j.videoUri.isSome ∧ j.downloadUrl.isSome ∧ j.error = none) ∧
  (j.status = JobStatus.pending ∨ j.status = JobStatus.processing →
    j.error = none ∧ j.videoUri = none ∧ j.downloadUrl = none)

/-- The master state invariant maintained by every `Step`. -/
structure StateInv (s : AppState) : Prop where
  nodup : (s.jobs.map Job.id).Nodup
  idLt : ∀ j ∈ s.jobs, j.id < s.nextId
  procLe : processingCount s.jobs ≤ MAX_CONCURRENT_JOBS
  fieldInv : ∀ j ∈ s.jobs, fieldsOK j
  histLe : ∀ t ∈ s.history, t ≤ s.now
  histSub : List.Sublist
    (s.history.filter fun t => decide (s.now - t < RATE_LIMIT_WINDOW_MS))
    s.queueStarts
  window : ∀ T, (s.history.filter fun t => inWindow T t).length ≤
    MAX_STARTS_PER_WINDOW

/-! ### Basic lemmas about the operations -/

theorem applyUpdates_id (st : JobStatus) (u : JobUpdates) (j : Job) :
    (applyUpdates st u j).id = j.id := rfl

theorem updateJobStatus_map_id (id : Nat) (st : JobStatus) (u : JobUpdates)
    (s : AppState) :
    (updateJobStatus id st u s).jobs.map Job.id = s.jobs.map Job.id := by
  unfold updateJobStatus
  rw [List.map_map]
  refine List.map_congr_left fun j _ => ?_
  by_cases hj : j.id = id <;> simp [hj, applyUpdates_id]

theorem updateJobStatus_length (id : Nat) (st : JobStatus) (u : JobUpdates)
    (s : AppState) :
    (updateJobStatus id st u s).jobs.length = s.jobs.length := by
  unfold updateJobStatus
  exact List.length_map _ _

/-- Two store members with the same id are the same job, given distinct ids. -/
theorem unique_id {l : List Job} (hnd : (l.map Job.id).Nodup) {a b : Job}
    (ha : a ∈ l) (hb : b ∈ l) (h : a.id = b.id) : a = b :=
  List.inj_on_of_nodup_map hnd ha hb h

/-- Updating to a non-Processing status never increases the Processing count. -/
theorem processingCount_update_le (id : Nat) (st : JobStatus) (u : JobUpdates)
    (l : List Job) (hst : st ≠ JobStatus.processing) :
    processingCount (l.map fun j => if j.id == id then applyUpdates st u j else j) ≤
      processingCount l := by
  unfold processingCount
  rw [← List.countP_eq_length_filter, ← List.countP_eq_length_filter,
    List.countP_map]
  refine List.countP_mono_left fun j _ hp => ?_
  by_cases hj : j.id == id
  · exfalso
    simp only [Function.comp, hj, if_pos] at hp
    exact hst (by simpa [applyUpdates] using hp)
  · simpa [Function.comp, hj] using hp

theorem countP_or_le (l : List Job) (p q : Job → Bool) :
    l.countP (fun j => p j || q j) ≤ l.countP p + l.countP q := by
  induction l with
  | nil => simp
  | cons a l ih =>
    simp only [List.countP_cons]
    by_cases hp : p a <;> by_cases hq : q a <;> simp [hp, hq] <;> omega

/-- With distinct ids, at most one store entry carries a given id. -/
theorem countP_id_le_one {l : List Job} (hnd : (l.map Job.id).Nodup) (c : Nat) :
    l.countP (fun j => j.id == c) ≤ 1 := by
  have h := List.nodup_iff_count_le_one.mp hnd c
  rwa [List.count_eq_countP, List.countP_map] at h

/-- Updating one id to Processing increases the Processing count by at most the
multiplicity of that id. -/
theorem processingCount_admit_le (id : Nat) (u : JobUpdates) (l : List Job) :
    processingCount (l.map fun j =>
        if j.id == id then applyUpdates JobStatus.processing u j else j) ≤
      l.countP (fun j => j.id == id) + processingCount l := by
  unfold processingCount
  rw [← List.countP_eq_length_filter, ← List.countP_eq_length_filter,
    List.countP_map]
  refine le_trans (le_trans (List.countP_mono_left
    (q := fun j => (j.id == id) || (j.status == JobStatus.processing))
    fun j _ hp => ?_) (countP_or_le l _ _)) (le_refl _)
  by_cases hj : j.id == id
  · simp [hj]
  · simp only [Function.comp, hj, if_neg, Bool.false_eq_true, ite_false] at hp
    simp [hj, hp]

/-! ### Lemmas about the rate window -/

theorem filter_unexpired_anti {a b : Nat} (hab : a ≤ b) (l : List Nat) :
    List.Sublist (l.filter fun t => decide (b - t < RATE_LIMIT_WINDOW_MS))
      (l.filter fun t => decide (a - t < RATE_LIMIT_WINDOW_MS)) := by
  refine List.monotone_filter_right l fun t ht => ?_
  simp only [decide_eq_true_eq] at ht ⊢
  omega

theorem histSub_later {s : AppState} (h : StateInv s) {τ : Nat} (hτ : s.now ≤ τ) :
    List.Sublist (s.history.filter fun t => decide (τ - t < RATE_LIMIT_WINDOW_MS))
      s.queueStarts :=
  (filter_unexpired_anti hτ s.history).trans h.histSub

theorem hist_filter_sub_valid {s : AppState} (h : StateInv s) {τ : Nat}
    (hτ : s.now ≤ τ) :
    List.Sublist (s.history.filter fun t => decide (τ - t < RATE_LIMIT_WINDOW_MS))
      (s.queueStarts.filter fun t => decide (τ - t < RATE_LIMIT_WINDOW_MS)) := by
  have h1 := (histSub_later h hτ).filter
    (fun t => decide (τ - t < RATE_LIMIT_WINDOW_MS))
  have h2 : (s.history.filter fun t => decide (τ - t < RATE_LIMIT_WINDOW_MS)).filter
      (fun t => decide (τ - t < RATE_LIMIT_WINDOW_MS)) =
      s.history.filter fun t => decide (τ - t < RATE_LIMIT_WINDOW_MS) :=
    List.filter_eq_self.mpr fun a ha => (List.mem_filter.mp ha).2
  rwa [h2] at h1

/-! ### Preservation of the master invariant -/

theorem stateInv_of_jobs {s : AppState} (h : StateInv s) {τ : Nat}
    (hτ : s.now ≤ τ) (jobs' : List Job)
    (hids : jobs'.map Job.id = s.jobs.map Job.id)
    (hproc : processingCount jobs' ≤ MAX_CONCURRENT_JOBS)
    (hfields : ∀ j ∈ jobs', fieldsOK j) :
    StateInv { s with jobs := jobs', now := τ } := by
  refine ⟨?_, ?_, hproc, hfields, ?_, ?_, ?_⟩
  · simpa [hids] using h.nodup
  · intro j hj
    have : j.id ∈ s.jobs.map Job.id := by
      rw [← hids]; exact List.mem_map_of_mem Job.id hj
    obtain ⟨j0, hj0, hid⟩ := List.mem_map.mp this
    simpa [← hid] using h.idLt j0 hj0
  · intro t ht
    exact le_trans (h.histLe t ht) hτ
  · exact histSub_later h hτ
  · exact h.window

theorem stateInv_now_mono {s : AppState} (h : StateInv s) {τ : Nat}
    (hτ : s.now ≤ τ) : StateInv { s with now := τ } := by
  have := stateInv_of_jobs h hτ s.jobs rfl h.procLe h.fieldInv
  exact this

theorem stateInv_prune {s : AppState} (h : StateInv s) {τ : Nat}
    (hτ : s.now ≤ τ) :
    StateInv { s with
      queueStarts := s.queueStarts.filter fun t =>
        decide (τ - t < RATE_LIMIT_WINDOW_MS)
      now := τ } := by
  refine ⟨h.nodup, h.idLt, h.procLe, h.fieldInv, ?_, ?_, h.window⟩
  · intro t ht
    exact le_trans (h.histLe t ht) hτ
  · exact hist_filter_sub_valid h hτ

theorem stateInv_add {s : AppState} (h : StateInv s) {τ : Nat} (hτ : s.now ≤ τ)
    (config : JobConfig) (count : Int) :
    StateInv { addJobs config count τ s with now := τ } := by
  unfold addJobs
  refine ⟨?_, ?_, ?_, ?_, ?_, ?_, ?_⟩
  · simp only [List.map_append, List.map_map]
    rw [List.nodup_append]
    refine ⟨h.nodup, ?_, ?_⟩
    · refine ((List.nodup_range _).map ?_)
      intro a b hab
      simp only [Function.comp] at hab
      omega
    · intro x hx hx'
      obtain ⟨j0, hj0, hid⟩ := List.mem_map.mp hx
      simp only [List.mem_map, List.mem_range, Function.comp] at hx'
      obtain ⟨i, _, hi⟩ := hx'
      have := h.idLt j0 hj0
      omega
  · intro j hj
    simp only [List.mem_append, List.mem_map, List.mem_range] at hj
    rcases hj with hj | ⟨i, hi, rfl⟩
    · have := h.idLt j hj
      simp only
      omega
    · simp only
      omega
  · unfold processingCount
    rw [List.filter_append]
    have hnil : (((List.range count.toNat).map fun i =>
        { id := s.nextId + i
          config := config
          status := JobStatus.pending
          createdAt := τ : Job }).filter fun j =>
            j.status == JobStatus.processing) = [] := by
      refine List.filter_eq_nil_iff.mpr fun j hj => ?_
      simp only [List.mem_map, List.mem_range] at hj
      obtain ⟨i, _, rfl⟩ := hj
      simp
    rw [hnil, List.append_nil]
    exact h.procLe
  · intro j hj
    simp only [List.mem_append, List.mem_map, List.mem_range] at hj
    rcases hj with hj | ⟨i, hi, rfl⟩
    · exact h.fieldInv j hj
    · exact ⟨fun hc => by simp at hc, fun hc => by simp at hc,
        fun _ => ⟨rfl, rfl, rfl⟩⟩
  · intro t ht
    exact le_trans (h.histLe t ht) hτ
  · exact histSub_later h hτ
  · exact h.window

theorem stateInv_update_event {s : AppState} (h : StateInv s) {τ : Nat}
    (hτ : s.now ≤ τ) (id : Nat) (st st0 : JobStatus) (u : JobUpdates)
    (hst : st ≠ JobStatus.processing)
    (hj : ∃ j ∈ s.jobs, j.id = id ∧ j.status = st0)
    (hfe : ∀ j ∈ s.jobs, j.id = id → j.status = st0 →
      fieldsOK (applyUpdates st u j)) :
    StateInv { updateJobStatus id st u s with now := τ } := by
  refine stateInv_of_jobs h hτ _ (updateJobStatus_map_id id st u s) ?_ ?_
  · exact le_trans (processingCount_update_le id st u s.jobs hst) h.procLe
  · intro j' hj'
    obtain ⟨j, hjm, rfl⟩ := List.mem_map.mp hj'
    by_cases hid : j.id = id
    · obtain ⟨j0, hj0m, hj0id, hj0st⟩ := hj
      have hjj0 : j = j0 := unique_id h.nodup hjm hj0m (by rw [hid, hj0id])
      simp only [hid, beq_self_eq_true, if_pos]
      exact hfe j hjm hid (by rw [hjj0, hj0st])
    · have : (j.id == id) = false := by simpa using hid
      simp only [this, Bool.false_eq_true, if_neg, not_false_iff]
      exact h.fieldInv j hjm

theorem stateInv_retry {s : AppState} (h : StateInv s) {τ : Nat}
    (hτ : s.now ≤ τ) (id : Nat)
    (hj : ∃ j ∈ s.jobs, j.id = id ∧ j.status = JobStatus.failed) :
    StateInv { handleRetry id s with now := τ } := by
  refine stateInv_update_event h hτ id JobStatus.pending JobStatus.failed _
    (by intro hc; cases hc) hj ?_
  intro j hjm _ hst
  obtain ⟨herr, -, -⟩ := h.fieldInv j hjm
  obtain ⟨-, huri, hurl⟩ := herr hst
  unfold fieldsOK applyUpdates
  simp [huri, hurl]

theorem stateInv_finishOk {s : AppState} (h : StateInv s) {τ : Nat}
    (hτ : s.now ≤ τ) (id : Nat) (uri blobUrl : String)
    (hj : ∃ j ∈ s.jobs, j.id = id ∧ j.status = JobStatus.processing) :
    StateInv { completeJob id τ uri blobUrl s with now := τ } := by
  refine stateInv_update_event h hτ id JobStatus.completed JobStatus.processing _
    (by intro hc; cases hc) hj ?_
  intro j hjm _ hst
  obtain ⟨-, -, hclear⟩ := h.fieldInv j hjm
  obtain ⟨herr, -, -⟩ := hclear (Or.inr hst)
  unfold fieldsOK applyUpdates
  simp [herr]

theorem stateInv_finishErr {s : AppState} (h : StateInv s) {τ : Nat}
    (hτ : s.now ≤ τ) (id : Nat) (msg : String)
    (hj : ∃ j ∈ s.jobs, j.id = id ∧ j.status = JobStatus.processing) :
    StateInv { failJob id msg s with now := τ } := by
  refine stateInv_update_event h hτ id JobStatus.failed JobStatus.processing _
    (by intro hc; cases hc) hj ?_
  intro j hjm _ hst
  obtain ⟨-, -, hclear⟩ := h.fieldInv j hjm
  obtain ⟨-, huri, hurl⟩ := hclear (Or.inr hst)
  unfold fieldsOK applyUpdates
  simp [huri, hurl]

theorem stateInv_admit {s : AppState} (h : StateInv s) {τ : Nat}
    (hτ : s.now ≤ τ) (cand : Job)
    (hfind : s.jobs.find? (fun j => j.status == JobStatus.pending) = some cand)
    (hproc : (s.jobs.filter fun j =>
      j.status == JobStatus.processing).length < MAX_CONCURRENT_JOBS)
    (hrate : (s.queueStarts.filter fun t =>
      decide (τ - t < RATE_LIMIT_WINDOW_MS)).length < MAX_STARTS_PER_WINDOW) :
    StateInv { startJobAdmit cand.id τ s with now := τ } := by
  have hcm : cand ∈ s.jobs := List.mem_of_find?_eq_some hfind
  have hcp : cand.status = JobStatus.pending := by
    have := List.find?_some hfind
    simpa using this
  refine ⟨?_, ?_, ?_, ?_, ?_, ?_, ?_⟩
  · have := updateJobStatus_map_id cand.id JobStatus.processing
      { startedAt := some (some τ) } s
    simpa [startJobAdmit, this] using h.nodup
  · intro j hj
    simp only [startJobAdmit] at hj
    have : j.id ∈ s.jobs.map Job.id := by
      rw [← updateJobStatus_map_id cand.id JobStatus.processing
        { startedAt := some (some τ) } s]
      exact List.mem_map_of_mem Job.id hj
    obtain ⟨j0, hj0, hid⟩ := List.mem_map.mp this
    simpa [startJobAdmit, ← hid] using h.idLt j0 hj0
  · have hle := processingCount_admit_le cand.id
      { startedAt := some (some τ) } s.jobs
    have hone := countP_id_le_one h.nodup cand.id
    have hlt : processingCount s.jobs < MAX_CONCURRENT_JOBS := hproc
    show processingCount _ ≤ MAX_CONCURRENT_JOBS
    calc processingCount _ ≤ s.jobs.countP (fun j => j.id == cand.id) +
          processingCount s.jobs := hle
      _ ≤ 1 + processingCount s.jobs := by omega
      _ ≤ MAX_CONCURRENT_JOBS := by
          unfold MAX_CONCURRENT_JOBS at hlt ⊢
          omega
  · intro j' hj'
    simp only [startJobAdmit] at hj'
    obtain ⟨j, hjm, rfl⟩ := List.mem_map.mp hj'
    by_cases hid : j.id = cand.id
    · have hjc : j = cand := unique_id h.nodup hjm hcm hid
      obtain ⟨-, -, hclear⟩ := h.fieldInv j hjm
      obtain ⟨herr, huri, hurl⟩ := hclear (Or.inl (hjc ▸ hcp))
      simp only [hid, beq_self_eq_true, if_pos]
      unfold fieldsOK applyUpdates
      simp [herr, huri, hurl]
    · have : (j.id == cand.id) = false := by simpa using hid
      simp only [this, Bool.false_eq_true, if_neg, not_false_iff]
      exact h.fieldInv j hjm
  · intro t ht
    simp only [startJobAdmit, List.mem_append, List.mem_singleton] at ht
    rcases ht with ht | rfl
    · exact le_trans (h.histLe t ht) hτ
    · exact le_refl t
  · show List.Sublist (((s.history ++ [τ]).filter fun t =>
      decide (τ - t < RATE_LIMIT_WINDOW_MS)) ) (s.queueStarts ++ [τ])
    rw [List.filter_append]
    have hττ : (decide (τ - τ < RATE_LIMIT_WINDOW_MS)) = true := by
      rw [decide_eq_true_eq]
      unfold RATE_LIMIT_WINDOW_MS
      omega
    refine List.Sublist.append (histSub_later h hτ) ?_
    have heq : ([τ].filter fun t => decide (τ - t < RATE_LIMIT_WINDOW_MS)) = [τ] := by
      rw [List.filter_singleton, hττ, cond_true]
    rw [heq]
  · intro T
    show ((s.history ++ [τ]).filter fun t => inWindow T t).length ≤
      MAX_STARTS_PER_WINDOW
    rw [List.filter_append]
    by_cases hw : inWindow T τ
    · have hsub1 : List.Sublist (s.history.filter fun t => inWindow T t)
          (s.history.filter fun t => decide (τ - t < RATE_LIMIT_WINDOW_MS)) := by
        refine List.monotone_filter_right s.history fun t ht => ?_
        simp only [inWindow, decide_eq_true_eq] at ht hw ⊢
        omega
      have hsub2 := hsub1.trans (hist_filter_sub_valid h hτ)
      have hlen := hsub2.length_le
      have : ([τ].filter fun t => inWindow T t).length ≤ 1 :=
        le_trans (List.length_filter_le _ _) (by simp)
      rw [List.length_append]
      unfold MAX_STARTS_PER_WINDOW at hrate ⊢
      omega
    · have : ([τ].filter fun t => inWindow T t) = [] := by
        simp only [List.filter_eq_nil_iff, List.mem_singleton]
        intro a ha
        subst ha
        simpa using hw
      rw [this, List.append_nil]
      exact h.window T

theorem stateInv_tick {s : AppState} (h : StateInv s) {τ : Nat}
    (hτ : s.now ≤ τ) : StateInv { processQueue τ s with now := τ } := by
  have hmono := stateInv_now_mono h hτ
  simp only [processQueue]
  split
  · exact stateInv_prune h hτ
  · next hne =>
    split
    · exact hmono
    · next hproc =>
      split
      · exact hmono
      · next hrate =>
        split
        · exact hmono
        · next cand hfind =>
          exact stateInv_admit h hτ cand hfind (by omega) (by omega)

theorem stateInv_step {s s' : AppState} (h : StateInv s) (hs : Step s s') :
    StateInv s' := by
  cases hs with
  | tick τ hτ => exact stateInv_tick h hτ
  | add τ config count hτ => exact stateInv_add h hτ config count
  | retry τ id hτ hj => exact stateInv_retry h hτ id hj
  | finishOk τ id uri blobUrl hτ hj => exact stateInv_finishOk h hτ id uri blobUrl hj
  | finishErr τ id emsg hτ hj =>
      exact stateInv_finishErr h hτ id (startJobFailMsg emsg) hj

theorem stateInv_init : StateInv initState := by
  refine ⟨?_, ?_, ?_, ?_, ?_, ?_, ?_⟩ <;> simp [initState, processingCount]

theorem reachable_inv {s : AppState} (h : Reachable s) : StateInv s := by
  induction h with
  | init => exact stateInv_init
  | step _ hs ih => exact stateInv_step ih hs

/-! ### Lemmas for the per-tick theorems -/

theorem zip_map_self (l : List Job) (f : Job → Job) :
    l.zip (l.map f) = l.map fun a => (a, f a) := by
  have := List.zip_map' id f l
  rw [List.map_id] at this
  exact this

theorem pendingToProcessing_self (l : List Job) : pendingToProcessing l l = 0 := by
  induction l with
  | nil => rfl
  | cons a l ih =>
    unfold pendingToProcessing at ih ⊢
    simp only [List.zip_cons_cons, List.filter_cons]
    have hfa : (a.status == JobStatus.pending &&
        a.status == JobStatus.processing) = false := by
      cases h : a.status <;> simp [h]
    simp only [hfa, Bool.false_eq_true, if_neg, not_false_iff, ite_false]
    exact ih

theorem pendingToProcessing_map (l : List Job) (f : Job → Job) :
    pendingToProcessing l (l.map f) = l.countP fun a =>
      a.status == JobStatus.pending && (f a).status == JobStatus.processing := by
  unfold pendingToProcessing
  rw [← List.countP_eq_length_filter, zip_map_self, List.countP_map]
  rfl

/-! ### The claims -/

/-- C1: in every reachable state the number of jobs with status Processing is
at most `MAX_CONCURRENT_JOBS` (4): the tick refuses admission at or above the
cap and no other operation sets a job to Processing. -/
theorem reachable_processing_le_maxConcurrent {s : AppState} (h : Reachable s) :
    processingCount s.jobs ≤ MAX_CONCURRENT_JOBS :=
  (reachable_inv h).procLe

/-- C2: in every reachable state, every trailing 60-second window contains at
most `MAX_STARTS_PER_WINDOW` (4) of the admission timestamps ever recorded in
the rate-window set (the ghost `history` field accumulates exactly the
Pending-to-Processing admission timestamps). -/
theorem reachable_window_admissions_le_maxPerWindow {s : AppState}
    (h : Reachable s) (T : Nat) :
    (s.history.filter fun t => inWindow T t).length ≤ MAX_STARTS_PER_WINDOW :=
  (reachable_inv h).window T

/-- C6: in every reachable state every job satisfies the field invariant:
`error` is set only when Failed (and then the result pair is clear), the
result pair (`videoUri`/`downloadUrl`) is set only when Completed (and then
`error` is clear), and all three are clear while Pending or Processing. -/
theorem reachable_fields_invariant {s : AppState} (h : Reachable s) :
    ∀ j ∈ s.jobs, fieldsOK j :=
  (reachable_inv h).fieldInv

/-- C10: a non-positive batch count creates no job: the store contents are
unchanged by `addJobs`. -/
theorem addJobs_nonpositive_count_noop (s : AppState) (config : JobConfig)
    (count : Int) (createdAt : Nat) (h : count ≤ 0) :
    (addJobs config count createdAt s).jobs = s.jobs := by
  simp only [addJobs]
  rw [Int.toNat_of_nonpos h]
  simp

/-- C4: whenever pruning removes at least one expired rate-window timestamp,
the tick writes the pruned set back and changes nothing else — in particular
it admits no job and defers admission to a later tick. -/
theorem tick_prune_writes_back_and_defers (s : AppState) (τ : Nat)
    (h : (s.queueStarts.filter fun t =>
      decide (τ - t < RATE_LIMIT_WINDOW_MS)).length < s.queueStarts.length) :
    processQueue τ s =
      { s with queueStarts := s.queueStarts.filter fun t => decide (τ - t < RATE_LIMIT_WINDOW_MS) } := by
  simp only [processQueue]
  rw [if_pos]
  omega

/-- C3: a single tick, from any state with distinct job ids, transitions at
most one job from Pending to Processing. -/
theorem tick_admits_at_most_one (s : AppState) (τ : Nat)
    (hnd : (s.jobs.map Job.id).Nodup) :
    pendingToProcessing s.jobs (processQueue τ s).jobs ≤ 1 := by
  have hself : pendingToProcessing s.jobs s.jobs ≤ 1 := by
    rw [pendingToProcessing_self]
    omega
  simp only [processQueue]
  split
  · exact hself
  · split
    · exact hself
    · split
      · exact hself
      · split
        · exact hself
        · next cand hfind =>
          show pendingToProcessing s.jobs (s.jobs.map fun j =>
            if j.id == cand.id then applyUpdates JobStatus.processing
              { startedAt := some (some τ) } j else j) ≤ 1
          rw [pendingToProcessing_map]
          refine le_trans (List.countP_mono_left fun a ha hp => ?_)
            (countP_id_le_one hnd cand.id)
          by_cases hid : a.id = cand.id
          · simpa using hid
          · exfalso
            have hne : (a.id == cand.id) = false := by simpa using hid
            rw [Bool.and_eq_true] at hp
            obtain ⟨hp1, hp2⟩ := hp
            simp only [hne, Bool.false_eq_true, if_neg, not_false_iff,
              ite_false] at hp2
            have h1 : a.status = JobStatus.pending := by simpa using hp1
            have h2 : a.status = JobStatus.processing := by simpa using hp2
            rw [h1] at h2
            cases h2

/-- Case analysis on the effect of one tick on the job store: either the store
is untouched, or the first Pending job (and exactly the entries carrying its
id) is marked Processing. -/
theorem processQueue_jobs_cases (s : AppState) (τ : Nat) :
    (processQueue τ s).jobs = s.jobs ∨
    ∃ cand, s.jobs.find? (fun j => j.status == JobStatus.pending) = some cand ∧
      (processQueue τ s).jobs = s.jobs.map fun j =>
        if j.id == cand.id then applyUpdates JobStatus.processing
          { startedAt := some (some τ) } j else j := by
  simp only [processQueue]
  split
  · exact Or.inl rfl
  · split
    · exact Or.inl rfl
    · split
      · exact Or.inl rfl
      · split
        · exact Or.inl rfl
        · next cand hfind => exact Or.inr ⟨cand, hfind, rfl⟩

/-- C5: whenever a tick admits a job, the admitted job is the first job in
store order whose status is Pending, and if no job is Pending the tick leaves
the store untouched — so admissions happen in FIFO order among Pending jobs.
Stated for any state with distinct job ids; `j` is the store entry at
position `i` before the tick and `j'` the entry at the same position after. -/
theorem tick_admits_first_pending (s : AppState) (τ : Nat)
    (hnd : (s.jobs.map Job.id).Nodup) :
    (s.jobs.find? (fun j => j.status == JobStatus.pending) = none →
      (processQueue τ s).jobs = s.jobs) ∧
    (∀ i j j', s.jobs.get? i = some j →
      (processQueue τ s).jobs.get? i = some j' →
      j.status = JobStatus.pending → j'.status = JobStatus.processing →
      s.jobs.find? (fun j => j.status == JobStatus.pending) = some j) := by
  rcases processQueue_jobs_cases s τ with hcase | ⟨cand, hfind, hcase⟩
  · refine ⟨fun _ => hcase, fun i j j' hj hj' hp hq => ?_⟩
    exfalso
    rw [hcase, hj] at hj'
    obtain rfl : j = j' := by injection hj'
    rw [hp] at hq
    cases hq
  · constructor
    · intro hnone
      rw [hfind] at hnone
      cases hnone
    · intro i j j' hj hj' hp hq
      have hjm : j ∈ s.jobs := List.get?_mem hj
      have hcm : cand ∈ s.jobs := List.mem_of_find?_eq_some hfind
      rw [hcase, List.get?_map, hj] at hj'
      simp only [Option.map_some'] at hj'
      by_cases hid : j.id = cand.id
      · have : j = cand := unique_id hnd hjm hcm hid
        rw [hfind, this]
      · exfalso
        have hne : (j.id == cand.id) = false := by simpa using hid
        rw [hne] at hj'
        simp only [Bool.false_eq_true, if_neg, not_false_iff, ite_false] at hj'
        obtain rfl : j = j' := by injection hj'
        rw [hp] at hq
        cases hq

theorem addJobs_jobs (config : JobConfig) (count : Int) (createdAt : Nat)
    (s : AppState) :
    (addJobs config count createdAt s).jobs =
      s.jobs ++ ((List.range count.toNat).map fun i =>
        { id := s.nextId + i
          config := config
          status := JobStatus.pending
          createdAt := createdAt : Job }) := rfl

/-- A store entry whose status differs from the updated job's status is left
untouched by `updateJobStatus`, given distinct ids. -/
theorem status_preserved_update {l : List Job} (hnd : (l.map Job.id).Nodup)
    (id : Nat) (st : JobStatus) (u : JobUpdates) {j0 : Job} (hj0m : j0 ∈ l)
    (hj0id : j0.id = id) {i : Nat} {j : Job} (hj : l.get? i = some j)
    (hne : j.status ≠ j0.status) :
    ((l.map fun x => if x.id == id then applyUpdates st u x else x).get? i).map
      Job.status = some j.status := by
  rw [List.get?_map, hj, Option.map_some']
  by_cases hid : j.id = id
  · exact absurd (congrArg Job.status
      (unique_id hnd (List.get?_mem hj) hj0m (by rw [hid, hj0id]))) hne
  · have hneq : (j.id == id) = false := by simpa using hid
    rw [hneq]
    simp

/-- C7: Completed is terminal — across any single system step (tick, job
creation, retry, or an execution finishing), a store entry that is Completed
before the step is still present and Completed after it.  Stated for any state
with distinct job ids; `j` is the entry at position `i`. -/
theorem completed_is_terminal {s s' : AppState}
    (hnd : (s.jobs.map Job.id).Nodup) (hs : Step s s')
    (i : Nat) (j : Job) (hj : s.jobs.get? i = some j)
    (hc : j.status = JobStatus.completed) :
    (s'.jobs.get? i).map Job.status = some JobStatus.completed := by
  cases hs with
  | tick τ hτ =>
    rcases processQueue_jobs_cases s τ with hcase | ⟨cand, hfind, hcase⟩
    · show ((processQueue τ s).jobs.get? i).map Job.status = _
      rw [hcase, hj, Option.map_some', hc]
    · have hcp : cand.status = JobStatus.pending := by
        simpa using List.find?_some hfind
      have hne : j.status ≠ cand.status := by
        rw [hc, hcp]
        intro h
        cases h
      show ((processQueue τ s).jobs.get? i).map Job.status = _
      rw [hcase, status_preserved_update hnd cand.id _ _
        (List.mem_of_find?_eq_some hfind) rfl hj hne, hc]
  | add τ config count hτ =>
    have hilen : i < s.jobs.length := by
      by_contra hlen
      rw [List.get?_eq_none.mpr (Nat.le_of_not_lt hlen)] at hj
      cases hj
    show ((addJobs config count τ s).jobs.get? i).map Job.status = _
    rw [addJobs_jobs, List.get?_append hilen, hj, Option.map_some', hc]
  | retry τ id hτ hjx =>
    obtain ⟨j0, hj0m, hj0id, hj0st⟩ := hjx
    have hne : j.status ≠ j0.status := by
      rw [hc, hj0st]
      intro h
      cases h
    show ((s.jobs.map fun x => if x.id == id then applyUpdates JobStatus.pending
      { error := some none } x else x).get? i).map Job.status = _
    rw [status_preserved_update hnd id _ _ hj0m hj0id hj hne, hc]
  | finishOk τ id uri blobUrl hτ hjx =>
    obtain ⟨j0, hj0m, hj0id, hj0st⟩ := hjx
    have hne : j.status ≠ j0.status := by
      rw [hc, hj0st]
      intro h
      cases h
    show ((s.jobs.map fun x => if x.id == id then applyUpdates JobStatus.completed
      { completedAt := some (some τ)
        videoUri := some (some uri)
        downloadUrl := some (some blobUrl) } x else x).get? i).map Job.status = _
    rw [status_preserved_update hnd id _ _ hj0m hj0id hj hne, hc]
  | finishErr τ id emsg hτ hjx =>
    obtain ⟨j0, hj0m, hj0id, hj0st⟩ := hjx
    have hne : j.status ≠ j0.status := by
      rw [hc, hj0st]
      intro h
      cases h
    show ((s.jobs.map fun x => if x.id == id then applyUpdates JobStatus.failed
      { error := some (some (startJobFailMsg emsg)) } x else x).get? i).map
        Job.status = _
    rw [status_preserved_update hnd id _ _ hj0m hj0id hj hne, hc]

/-- C8: retrying a Failed job sets it back to Pending, clears its error, and
leaves its config untouched; and retrying twice is the same as retrying once
(idempotent in effect, as a state equality).  `j` is the store entry at
position `i` before the retry and `j'` the entry at that position after. -/
theorem retry_resets_failed_and_idempotent (s : AppState) (id : Nat) :
    handleRetry id (handleRetry id s) = handleRetry id s ∧
    (∀ i j j', s.jobs.get? i = some j →
      (handleRetry id s).jobs.get? i = some j' →
      j.id = id → j.status = JobStatus.failed →
      j'.status = JobStatus.pending ∧ j'.error = none ∧ j'.config = j.config) := by
  constructor
  · unfold handleRetry updateJobStatus
    congr 1
    rw [List.map_map]
    refine List.map_congr_left fun a _ => ?_
    by_cases hid : a.id = id
    · simp [Function.comp, applyUpdates, hid]
    · simp [Function.comp, hid]
  · intro i j j' hj hj' hid hst
    have hb : (j.id == id) = true := by simpa using hid
    have hget : (handleRetry id s).jobs.get? i =
        some (applyUpdates JobStatus.pending { error := some none } j) := by
      show ((s.jobs.map fun x => if x.id == id then applyUpdates
        JobStatus.pending { error := some none } x else x).get? i) = _
      rw [List.get?_map, hj, Option.map_some', hb]
      simp
    rw [hget] at hj'
    obtain rfl : applyUpdates JobStatus.pending { error := some none } j = j' := by
      injection hj'
    exact ⟨rfl, rfl, rfl⟩

/-- C9: when the remote operation fails with optional message `o`, the job
identified by `id` transitions to Failed and its error field is exactly the
reported message when one is present and non-empty, and the generic fallback
"Unknown generation error" otherwise; the stored message is never empty.
`j` is the store entry at position `i`. -/
theorem remote_failure_sets_exact_message (o : Option String) (s : AppState)
    (id τ : Nat) (blobUrl : String) (i : Nat) (j : Job)
    (hj : s.jobs.get? i = some j) (hid : j.id = id) :
    generateVideoJob (RemoteResult.opErr o) = Except.error (genVideoErrMsg o) ∧
    genVideoErrMsg o = (match o with
      | some m => if m = "" then "Unknown generation error" else m
      | none => "Unknown generation error") ∧
    genVideoErrMsg o ≠ "" ∧
    ((startJobOutcome id τ (RemoteResult.opErr o) blobUrl s).jobs.get? i).map
      Job.status = some JobStatus.failed ∧
    ((startJobOutcome id τ (RemoteResult.opErr o) blobUrl s).jobs.get? i).map
      Job.error = some (some (genVideoErrMsg o)) := by
  have hchar : genVideoErrMsg o = (match o with
      | some m => if m = "" then "Unknown generation error" else m
      | none => "Unknown generation error") := by
    cases o with
    | none => simp [genVideoErrMsg, jsOr]
    | some m => by_cases hm : m = "" <;> simp [genVideoErrMsg, jsOr, hm]
  have hne : genVideoErrMsg o ≠ "" := by
    rw [hchar]
    cases o with
    | none => simp
    | some m => by_cases hm : m = "" <;> simp [hm]
  have hout : startJobOutcome id τ (RemoteResult.opErr o) blobUrl s =
      failJob id (genVideoErrMsg o) s := by
    show failJob id (startJobFailMsg (some (genVideoErrMsg o))) s = _
    have hmsg : startJobFailMsg (some (genVideoErrMsg o)) = genVideoErrMsg o := by
      unfold startJobFailMsg jsOr
      rw [Option.getD_some, if_neg hne]
    rw [hmsg]
  have hb : (j.id == id) = true := by simpa using hid
  have hget : (failJob id (genVideoErrMsg o) s).jobs.get? i =
      some (applyUpdates JobStatus.failed
        { error := some (some (genVideoErrMsg o)) } j) := by
    show ((s.jobs.map fun x => if x.id == id then applyUpdates JobStatus.failed
      { error := some (some (genVideoErrMsg o)) } x else x).get? i) = _
    rw [List.get?_map, hj, Option.map_some', hb]
    simp
  refine ⟨rfl, hchar, hne, ?_, ?_⟩
  · rw [hout, hget]
    rfl
  · rw [hout, hget]
    rfl

/-! ### Concrete executions used as witnesses -/

def cfgW : JobConfig :=
  { prompt := "a cat surfing"
    inputType := InputType.text
    model := ModelType.veoFast
    aspectRatio := AspectRatio.r16x9
    resolution := Resolution.r720p }

def stateW1 : AppState := { addJobs cfgW 1 0 initState with now := 0 }

def stateW2 : AppState := { processQueue 0 stateW1 with now := 0 }

def stateW3 : AppState := { completeJob 0 1 "uri" "blob" stateW2 with now := 1 }

theorem reachW1 : Reachable stateW1 :=
  Reachable.step Reachable.init (Step.add initState 0 cfgW 1 (Nat.le_refl 0))

theorem reachW2 : Reachable stateW2 :=
  Reachable.step reachW1 (Step.tick stateW1 0 (by decide))

theorem reachW3 : Reachable stateW3 :=
  Reachable.step reachW2 (Step.finishOk stateW2 1 0 "uri" "blob" (by decide)
    (by decide))

def stateW4 : AppState := { initState with queueStarts := [0] }

def jobW : Job := { id := 0, config := cfgW, status := JobStatus.pending, createdAt := 0 }

def jobW2 : Job :=
  { id := 0, config := cfgW, status := JobStatus.processing, createdAt := 0
    startedAt := some 0 }

def jobW3 : Job :=
  { id := 0, config := cfgW, status := JobStatus.completed, createdAt := 0
    startedAt := some 0, completedAt := some 1
    videoUri := some "uri", downloadUrl := some "blob" }

def jobW5 : Job :=
  { id := 0, config := cfgW, status := JobStatus.failed, error := some "boom"
    createdAt := 0 }

def jobW5r : Job := { id := 0, config := cfgW, status := JobStatus.pending, createdAt := 0 }

def stateW5 : AppState :=
  { jobs := [jobW5], queueStarts := [], nextId := 1, now := 2, history := [] }

/-- Witness for C1 at a reachable state with one Processing job. -/
theorem reachable_processing_le_maxConcurrent_witness :
    processingCount stateW2.jobs ≤ MAX_CONCURRENT_JOBS :=
  reachable_processing_le_maxConcurrent reachW2

/-- Witness for C2 at a reachable state with one recorded admission. -/
theorem reachable_window_admissions_le_maxPerWindow_witness :
    (stateW3.history.filter fun t => inWindow 100 t).length ≤
      MAX_STARTS_PER_WINDOW :=
  reachable_window_admissions_le_maxPerWindow reachW3 100

/-- Witness for C3 on a tick that actually admits a job. -/
theorem tick_admits_at_most_one_witness :
    pendingToProcessing stateW1.jobs (processQueue 0 stateW1).jobs ≤ 1 :=
  tick_admits_at_most_one stateW1 0 (by decide)

/-- Witness for C4 on a tick that prunes one expired timestamp. -/
theorem tick_prune_writes_back_and_defers_witness :
    processQueue 60000 stateW4 =
      { stateW4 with queueStarts := stateW4.queueStarts.filter fun t => decide (60000 - t < RATE_LIMIT_WINDOW_MS) } :=
  tick_prune_writes_back_and_defers stateW4 60000 (by decide)

/-- Witness for C5 on a tick that admits the first (and only) Pending job. -/
theorem tick_admits_first_pending_witness :
    stateW1.jobs.find? (fun j => j.status == JobStatus.pending) = some jobW :=
  (tick_admits_first_pending stateW1 0 (by decide)).2 0 jobW jobW2
    (by decide) (by decide) (by decide) (by decide)

/-- Witness for C6 on a reachable Completed job. -/
theorem reachable_fields_invariant_witness : fieldsOK jobW3 :=
  reachable_fields_invariant reachW3 jobW3 (by decide)

/-- Witness for C7: a Completed job survives a further tick. -/
theorem completed_is_terminal_witness :
    ((({ processQueue 5 stateW3 with now := 5 } : AppState).jobs.get? 0).map
      Job.status) = some JobStatus.completed :=
  completed_is_terminal (by decide) (Step.tick stateW3 5 (by decide)) 0 jobW3
    (by decide) (by decide)

/-- Witness for C8 on a concrete Failed job. -/
theorem retry_resets_failed_and_idempotent_witness :
    (handleRetry 0 (handleRetry 0 stateW5) = handleRetry 0 stateW5) ∧
    (jobW5r.status = JobStatus.pending ∧ jobW5r.error = none ∧
      jobW5r.config = jobW5.config) :=
  ⟨(retry_resets_failed_and_idempotent stateW5 0).1,
    (retry_resets_failed_and_idempotent stateW5 0).2 0 jobW5 jobW5r
      (by decide) (by decide) (by decide) (by decide)⟩

/-- Witness for C9 with the remote error message "ouch". -/
theorem remote_failure_sets_exact_message_witness :
    generateVideoJob (RemoteResult.opErr (some "ouch")) =
      Except.error (genVideoErrMsg (some "ouch")) ∧
    genVideoErrMsg (some "ouch") = (match some "ouch" with
      | some m => if m = "" then "Unknown generation error" else m
      | none => "Unknown generation error") ∧
    genVideoErrMsg (some "ouch") ≠ "" ∧
    ((startJobOutcome 0 7 (RemoteResult.opErr (some "ouch")) "blob"
      stateW5).jobs.get? 0).map Job.status = some JobStatus.failed ∧
    ((startJobOutcome 0 7 (RemoteResult.opErr (some "ouch")) "blob"
      stateW5).jobs.get? 0).map Job.error =
        some (some (genVideoErrMsg (some "ouch"))) :=
  remote_failure_sets_exact_message (some "ouch") stateW5 0 7 "blob" 0 jobW5
    (by decide) (by decide)

/-- Witness for C10 with batch count `-3`. -/
theorem addJobs_nonpositive_count_noop_witness :
    (addJobs cfgW (-3) 0 initState).jobs = initState.jobs :=
  addJobs_nonpositive_count_noop initState cfgW (-3) 0 (by decide)
